import Mathlib

set_option autoImplicit false

/-!
Verification of the pdfz repository core: the page-level extraction cache
(`page_cache.py`), the content-extraction orchestrator and text search
(`mcp_server.py`), ingestion duplicate detection (`ingest.py`, `store.py`)
and PDF page slicing (`pdf_utils.py`), shallowly embedded in Lean.

Modelling conventions:
* Python `dict` → insertion-ordered association list with unique keys;
  `put` replaces in place or appends, matching dict assignment.
* Python `int` page numbers → `Int`; strings → `String` / `List Char`.
* External effects (PDF download, pypdf text extraction, the LLM
  extraction agent, sha256) → oracle functions passed as parameters.
* Python truthiness of `str | None` (`if cached:`) → `none` and the empty
  string are falsy, every other string truthy.
-/

namespace PdfzModel

/-! ### Page cache (src/pdfz/page_cache.py)

`_cache: dict[tuple[str, int], str]` modelled as an ordered association
list with unique keys (the dict invariant); operations preserve it. -/

abbrev Cache := List ((String × Int) × String)

def cacheGet : Cache → String → Int → Option String
  | [], _, _ => none
  | e :: rest, d, p => if e.1 = (d, p) then some e.2 else cacheGet rest d p

def cachePut : Cache → String → Int → String → Cache
  | [], d, p, v => [((d, p), v)]
  | e :: rest, d, p, v =>
      if e.1 = (d, p) then ((d, p), v) :: rest else e :: cachePut rest d p v

def cacheInvalidate (c : Cache) (docId : Option String) : Cache × Nat :=
  match docId with
  | none => ([], c.length)
  | some d =>
      (c.filter (fun e => !(e.1.1 == d)), (c.filter (fun e => e.1.1 == d)).length)

def cacheSize (c : Cache) : Nat := c.length

/-! Basic cache lemmas. -/

theorem cacheGet_put_same (c : Cache) (d : String) (p : Int) (v : String) :
    cacheGet (cachePut c d p v) d p = some v := by
  induction c with
  | nil => simp [cachePut, cacheGet]
  | cons e rest ih =>
      by_cases h : e.1 = (d, p)
      · simp [cachePut, h, cacheGet]
      · simp [cachePut, h, cacheGet, ih]

theorem cacheGet_put_other (c : Cache) (d : String) (p : Int) (v : String)
    (d' : String) (p' : Int) (h : (d', p') ≠ (d, p)) :
    cacheGet (cachePut c d p v) d' p' = cacheGet c d' p' := by
  have hne : ¬ ((d, p) = (d', p')) := fun hh => h hh.symm
  induction c with
  | nil => simp [cachePut, cacheGet, hne]
  | cons e rest ih =>
      by_cases he : e.1 = (d, p)
      · simp [cachePut, he, cacheGet, hne]
      · simp only [cachePut, he, if_false, cacheGet]
        by_cases he' : e.1 = (d', p')
        · simp [he']
        · simp [he', ih]

theorem cacheSize_put_le (c : Cache) (d : String) (p : Int) (v : String) :
    cacheSize c ≤ cacheSize (cachePut c d p v) := by
  induction c with
  | nil => simp [cachePut, cacheSize]
  | cons e rest ih =>
      by_cases h : e.1 = (d, p)
      · simp [cachePut, h, cacheSize]
      · simpa [cachePut, h, cacheSize] using ih

theorem cacheGet_put_isSome (c : Cache) (d : String) (p : Int) (v : String)
    (d' : String) (p' : Int) (h : (cacheGet c d' p').isSome) :
    (cacheGet (cachePut c d p v) d' p').isSome := by
  by_cases hk : (d', p') = (d, p)
  · cases hk; simp [cacheGet_put_same]
  · rw [cacheGet_put_other c d p v d' p' hk]; exact h

theorem cacheGet_invalidate_some (c : Cache) (d : String) (d' : String) (p : Int) :
    cacheGet (cacheInvalidate c (some d)).1 d' p =
      if d' = d then none else cacheGet c d' p := by
  induction c with
  | nil => simp [cacheInvalidate, cacheGet]
  | cons e rest ih =>
      simp only [cacheInvalidate] at ih ⊢
      by_cases hd : e.1.1 = d
      · by_cases hk : e.1 = (d', p)
        · have hd' : d' = d := by rw [← hd, hk]
          subst hd'
          simp only [if_pos rfl] at ih
          simp [List.filter_cons, hd, cacheGet, ih, hk]
        · simp [List.filter_cons, hd, cacheGet, hk, ih]
      · by_cases hk : e.1 = (d', p)
        · have hd' : ¬ d' = d := by
            intro hh
            exact hd (by rw [hk]; exact hh)
          simp [List.filter_cons, hd, cacheGet, hk, hd']
        · simp [List.filter_cons, hd, cacheGet, hk, ih]

theorem cacheInvalidate_some_count (c : Cache) (d : String) :
    (cacheInvalidate c (some d)).1.length + (cacheInvalidate c (some d)).2 = c.length := by
  simp only [cacheInvalidate]
  induction c with
  | nil => simp
  | cons e rest ih =>
      by_cases hd : e.1.1 = d <;> simp [List.filter_cons, hd] <;> omega

/-- C6: `invalidate(doc_id)` removes exactly the entries whose key's first
component equals `doc_id` (lookups for that document become absent, all
other lookups are unchanged), returns the number of entries whose first
component equals `doc_id`, and the new size plus the returned count equals
the old size; `invalidate(None)` empties the cache and returns the prior
total count. -/
theorem C6_invalidate_scoping (c : Cache) (d : String) :
    (∀ d' p, cacheGet (cacheInvalidate c (some d)).1 d' p =
        if d' = d then none else cacheGet c d' p) ∧
    (cacheInvalidate c (some d)).2 = (c.filter (fun e => e.1.1 == d)).length ∧
    cacheSize (cacheInvalidate c (some d)).1 + (cacheInvalidate c (some d)).2 = cacheSize c ∧
    (cacheInvalidate c none).1 = [] ∧
    (cacheInvalidate c none).2 = cacheSize c := by
  refine ⟨fun d' p => cacheGet_invalidate_some c d d' p, rfl,
    cacheInvalidate_some_count c d, rfl, rfl⟩

/-- C7: `put` followed by `get` on the same key returns the stored content;
a second `put` to the same key overwrites (last writer wins); `get` on the
key is unaffected by `put`s to other keys and by invalidation of other
documents, and an invalidate targeting the key's document removes it. -/
theorem C7_put_get_last_writer_wins (c : Cache) (d : String) (p : Int) (v : String) :
    cacheGet (cachePut c d p v) d p = some v ∧
    (∀ v₂, cacheGet (cachePut (cachePut c d p v) d p v₂) d p = some v₂) ∧
    (∀ d' p' v', (d', p') ≠ (d, p) →
      cacheGet (cachePut (cachePut c d p v) d' p' v') d p = some v) ∧
    (∀ d', d ≠ d' →
      cacheGet (cacheInvalidate (cachePut c d p v) (some d')).1 d p = some v) ∧
    cacheGet (cacheInvalidate (cachePut c d p v) (some d)).1 d p = none := by
  refine ⟨cacheGet_put_same c d p v,
    fun v₂ => cacheGet_put_same (cachePut c d p v) d p v₂,
    fun d' p' v' h => ?_, fun d' h => ?_, ?_⟩
  · rw [cacheGet_put_other (cachePut c d p v) d' p' v' d p (fun hh => h (hh.symm)),
      cacheGet_put_same]
  · rw [cacheGet_invalidate_some]
    simp [h, cacheGet_put_same]
  · rw [cacheGet_invalidate_some]
    simp

/-- Witness for C7 at a concrete cache and key, discharging each hypothesis. -/
theorem C7_put_get_last_writer_wins_witness :
    cacheGet (cachePut [] "doc" 1 "alpha") "doc" 1 = some "alpha" ∧
    cacheGet (cachePut (cachePut [] "doc" 1 "alpha") "doc" 1 "beta") "doc" 1 = some "beta" ∧
    cacheGet (cachePut (cachePut [] "doc" 1 "alpha") "doc" 2 "c") "doc" 1 = some "alpha" ∧
    cacheGet (cacheInvalidate (cachePut [] "doc" 1 "alpha") (some "other")).1 "doc" 1 =
      some "alpha" ∧
    cacheGet (cacheInvalidate (cachePut [] "doc" 1 "alpha") (some "doc")).1 "doc" 1 = none :=
  ⟨(C7_put_get_last_writer_wins [] "doc" 1 "alpha").1,
    (C7_put_get_last_writer_wins [] "doc" 1 "alpha").2.1 "beta",
    (C7_put_get_last_writer_wins [] "doc" 1 "alpha").2.2.1 "doc" 2 "c" (by decide),
    (C7_put_get_last_writer_wins [] "doc" 1 "alpha").2.2.2.1 "other" (by decide),
    (C7_put_get_last_writer_wins [] "doc" 1 "alpha").2.2.2.2⟩

/-! ### Documents and store (src/pdfz/models.py, src/pdfz/store.py)

`PDFDocument` with the `PDFMetadata` fields inlined (the optional
`date_published` field is carried by no claim and omitted).
`total_pages: int | None` → `Option Int`. The JSON store is the list of
documents in insertion order; `add` appends, `get`/`find_by_hash` return
the first document with the matching id / content hash. -/

structure PDFDocument where
  id : String
  content_hash : String
  title : String
  authors : List String
  source_url : String
  toc : String
  contextual_summary : String
  total_pages : Option Int
deriving DecidableEq, Repr

def storeGet : List PDFDocument → String → Option PDFDocument
  | [], _ => none
  | doc :: rest, i => if doc.id = i then some doc else storeGet rest i

def find_by_hash : List PDFDocument → String → Option PDFDocument
  | [], _ => none
  | doc :: rest, h => if doc.content_hash = h then some doc else find_by_hash rest h

/-! ### Content extraction orchestrator (src/pdfz/mcp_server.py, extract_page_content)

The PDF download, single-page slicing and the LLM extraction agent are
external; their composition is the oracle `extract : docId → pageNum →
markdown` (the code always slices exactly the one requested page of the
requested document, so the oracle's arguments determine the call).
`calls` records the page numbers for which the extraction agent was
invoked, in order. Python truthiness `if cached:` → `strTruthy`. -/

def strTruthy : Option String → Bool
  | none => false
  | some s => s ≠ ""

/-- `range(page_start, page_end + 1)` over `Int`. -/
def rangeList (ps pe : Int) : List Int :=
  (List.range (pe + 1 - ps).toNat).map (fun (i : Nat) => ps + (i : Int))

def pageBlock (p : Int) (content : String) : String :=
  "## Page " ++ toString p ++ "\n\n" ++ content

inductive ExtractOutcome where
  | notFound (msg : String)
  | spanTooLarge (msg : String)
  | badStart (msg : String)
  | beyondTotal (msg : String)
  | ok (output : String)
deriving DecidableEq, Repr

structure ExtractResult where
  cache : Cache
  calls : List Int
  outcome : ExtractOutcome
deriving DecidableEq, Repr

/-- The per-page loop of `extract_page_content`: returns the final cache,
the pages sent to the extraction agent, and the assembled page blocks. -/
def extractLoop (extract : String → Int → String) (docId : String) :
    List Int → Cache → Cache × List Int × List String
  | [], c => (c, [], [])
  | p :: rest, c =>
      let cached := cacheGet c docId p
      if strTruthy cached then
        let res := extractLoop extract docId rest c
        (res.1, res.2.1, pageBlock p (cached.getD "") :: res.2.2)
      else
        let out := extract docId p
        let res := extractLoop extract docId rest (cachePut c docId p out)
        (res.1, p :: res.2.1, pageBlock p out :: res.2.2)

def extractRun (extract : String → Int → String) (cache : Cache)
    (docId : String) (ps pe : Int) : ExtractResult :=
  let res := extractLoop extract docId (rangeList ps pe) cache
  ⟨res.1, res.2.1, .ok (String.intercalate "\n\n---\n\n" res.2.2)⟩

def extract_page_content (store : List PDFDocument) (extract : String → Int → String)
    (cache : Cache) (document_id : String) (page_start page_end : Int) : ExtractResult :=
  match storeGet store document_id with
  | none => ⟨cache, [], .notFound ("Document " ++ document_id ++ " not found.")⟩
  | some doc =>
      if page_end - page_start > 9 then
        ⟨cache, [], .spanTooLarge "Please limit page range to 10 pages at a time."⟩
      else if page_start < 1 then
        ⟨cache, [], .badStart "page_start must be >= 1."⟩
      else
        match doc.total_pages with
        | some t =>
            if t ≠ 0 ∧ page_end > t then
              ⟨cache, [], .beyondTotal ("Document only has " ++ toString t ++ " pages.")⟩
            else extractRun extract cache document_id page_start page_end
        | none => extractRun extract cache document_id page_start page_end

/-- A sequence of `extract_page_content` calls threaded through the cache. -/
def runCalls (store : List PDFDocument) (extract : String → Int → String) :
    List (String × Int × Int) → Cache → Cache
  | [], c => c
  | q :: rest, c =>
      runCalls store extract rest (extract_page_content store extract c q.1 q.2.1 q.2.2).cache

/-- A 120-page sample document used for the boundary scenarios. -/
def doc120 : PDFDocument :=
  { id := "doc120", content_hash := "h120", title := "Sample report",
    authors := [], source_url := "http://example.com/a.pdf", toc := "",
    contextual_summary := "", total_pages := some 120 }

/-- A document whose PDF has zero pages: `total_pages = some 0`. -/
def doc0 : PDFDocument :=
  { id := "doc0", content_hash := "h0", title := "Empty",
    authors := [], source_url := "http://example.com/e.pdf", toc := "",
    contextual_summary := "", total_pages := some 0 }

theorem mem_rangeList (ps pe p : Int) : p ∈ rangeList ps pe ↔ ps ≤ p ∧ p ≤ pe := by
  constructor
  · intro h
    obtain ⟨i, hi, hip⟩ := List.mem_map.mp h
    have hi' := List.mem_range.mp hi
    omega
  · intro h
    exact List.mem_map.mpr ⟨(p - ps).toNat, List.mem_range.mpr (by omega), by omega⟩

theorem strTruthy_isSome {o : Option String} (h : strTruthy o = true) : o.isSome := by
  cases o <;> simp [strTruthy] at h ⊢

theorem extractLoop_size (extract : String → Int → String) (docId : String)
    (l : List Int) : ∀ c : Cache, cacheSize c ≤ cacheSize (extractLoop extract docId l c).1 := by
  induction l with
  | nil => intro c; simp [extractLoop]
  | cons p rest ih =>
      intro c
      by_cases ht : strTruthy (cacheGet c docId p) = true
      · simpa [extractLoop, ht] using ih c
      · have h1 := cacheSize_put_le c docId p (extract docId p)
        have h2 := ih (cachePut c docId p (extract docId p))
        simpa [extractLoop, ht] using le_trans h1 h2

theorem extractLoop_preserve (extract : String → Int → String) (docId : String)
    (l : List Int) (d' : String) (p' : Int) :
    ∀ c : Cache, (cacheGet c d' p').isSome →
      (cacheGet (extractLoop extract docId l c).1 d' p').isSome := by
  induction l with
  | nil => intro c h; simpa [extractLoop] using h
  | cons p rest ih =>
      intro c h
      by_cases ht : strTruthy (cacheGet c docId p) = true
      · simpa [extractLoop, ht] using ih c h
      · have h2 := ih (cachePut c docId p (extract docId p))
          (cacheGet_put_isSome c docId p (extract docId p) d' p' h)
        simpa [extractLoop, ht] using h2

theorem extractLoop_mem_present (extract : String → Int → String) (docId : String)
    (p : Int) (l : List Int) : ∀ c : Cache, p ∈ l →
      (cacheGet (extractLoop extract docId l c).1 docId p).isSome := by
  induction l with
  | nil => intro c hp; cases hp
  | cons q rest ih =>
      intro c hp
      by_cases ht : strTruthy (cacheGet c docId q) = true
      · rcases List.mem_cons.mp hp with rfl | hmem
        · simpa [extractLoop, ht] using
            extractLoop_preserve extract docId rest docId p c (strTruthy_isSome ht)
        · simpa [extractLoop, ht] using ih c hmem
      · rcases List.mem_cons.mp hp with rfl | hmem
        · have hput : (cacheGet (cachePut c docId p (extract docId p)) docId p).isSome := by
            rw [cacheGet_put_same]; rfl
          simpa [extractLoop, ht] using
            extractLoop_preserve extract docId rest docId p _ hput
        · simpa [extractLoop, ht] using ih (cachePut c docId q (extract docId q)) hmem

theorem extract_page_content_size (store : List PDFDocument)
    (extract : String → Int → String) (cache : Cache) (docId : String) (ps pe : Int) :
    cacheSize cache ≤ cacheSize (extract_page_content store extract cache docId ps pe).cache := by
  rcases hs : storeGet store docId with _ | doc
  · simp [extract_page_content, hs]
  · by_cases h1 : pe - ps > 9
    · simp [extract_page_content, hs, h1]
    · by_cases h2 : ps < 1
      · simp [extract_page_content, hs, h1, h2]
      · rcases htp : doc.total_pages with _ | t
        · simpa [extract_page_content, hs, h1, h2, htp, extractRun] using
            extractLoop_size extract docId (rangeList ps pe) cache
        · by_cases h3 : t ≠ 0 ∧ pe > t
          · simp [extract_page_content, hs, h1, h2, htp, h3]
          · simpa [extract_page_content, hs, h1, h2, htp, h3, extractRun] using
              extractLoop_size extract docId (rangeList ps pe) cache

theorem extract_page_content_ok_present (store : List PDFDocument)
    (extract : String → Int → String) (cache : Cache) (docId : String) (ps pe : Int)
    (out : String)
    (h : (extract_page_content store extract cache docId ps pe).outcome = .ok out) :
    ∀ p, ps ≤ p → p ≤ pe →
      (cacheGet (extract_page_content store extract cache docId ps pe).cache docId p).isSome := by
  intro p hp1 hp2
  have hmem : p ∈ rangeList ps pe := (mem_rangeList ps pe p).mpr ⟨hp1, hp2⟩
  rcases hs : storeGet store docId with _ | doc
  · simp [extract_page_content, hs] at h
  · by_cases h1 : pe - ps > 9
    · simp [extract_page_content, hs, h1] at h
    · by_cases h2 : ps < 1
      · simp [extract_page_content, hs, h1, h2] at h
      · rcases htp : doc.total_pages with _ | t
        · simpa [extract_page_content, hs, h1, h2, htp, extractRun] using
            extractLoop_mem_present extract docId p (rangeList ps pe) cache hmem
        · by_cases h3 : t ≠ 0 ∧ pe > t
          · simp [extract_page_content, hs, h1, h2, htp, h3] at h
          · simpa [extract_page_content, hs, h1, h2, htp, h3, extractRun] using
              extractLoop_mem_present extract docId p (rangeList ps pe) cache hmem

theorem runCalls_size (store : List PDFDocument) (extract : String → Int → String)
    (calls : List (String × Int × Int)) :
    ∀ c : Cache, cacheSize c ≤ cacheSize (runCalls store extract calls c) := by
  induction calls with
  | nil => intro c; simp [runCalls]
  | cons q rest ih =>
      intro c
      exact le_trans (extract_page_content_size store extract c q.1 q.2.1 q.2.2)
        (ih (extract_page_content store extract c q.1 q.2.1 q.2.2).cache)

/-- C1: when `extract_page_content` returns successfully, every page of the
requested range has a cache entry for that document in the resulting cache;
a single call never shrinks the cache, and `size` is non-decreasing across
any sequence of `extract_page_content` calls (it can drop only at an
`invalidate`). -/
theorem C1_cache_monotone_growth (store : List PDFDocument)
    (extract : String → Int → String) (cache : Cache) (docId : String) (ps pe : Int) :
    (∀ out, (extract_page_content store extract cache docId ps pe).outcome = .ok out →
      ∀ p, ps ≤ p → p ≤ pe →
        (cacheGet (extract_page_content store extract cache docId ps pe).cache docId p).isSome) ∧
    cacheSize cache ≤ cacheSize (extract_page_content store extract cache docId ps pe).cache ∧
    (∀ calls, cacheSize cache ≤ cacheSize (runCalls store extract calls cache)) :=
  ⟨fun out h => extract_page_content_ok_present store extract cache docId ps pe out h,
    extract_page_content_size store extract cache docId ps pe,
    fun calls => runCalls_size store extract calls cache⟩

/-- Witness for C1: a successful two-page extraction on an empty cache
leaves both pages present, and sizes are monotone. -/
theorem C1_cache_monotone_growth_witness :
    (cacheGet (extract_page_content [doc120] (fun _ _ => "X") [] "doc120" 1 2).cache
        "doc120" 1).isSome ∧
    (cacheGet (extract_page_content [doc120] (fun _ _ => "X") [] "doc120" 1 2).cache
        "doc120" 2).isSome ∧
    cacheSize ([] : Cache) ≤
      cacheSize (extract_page_content [doc120] (fun _ _ => "X") [] "doc120" 1 2).cache ∧
    cacheSize ([] : Cache) ≤
      cacheSize (runCalls [doc120] (fun _ _ => "X") [("doc120", 1, 2), ("doc120", 2, 3)] []) :=
  ⟨(C1_cache_monotone_growth [doc120] (fun _ _ => "X") [] "doc120" 1 2).1
      "## Page 1\n\nX\n\n---\n\n## Page 2\n\nX" (by decide) 1 (by decide) (by decide),
    (C1_cache_monotone_growth [doc120] (fun _ _ => "X") [] "doc120" 1 2).1
      "## Page 1\n\nX\n\n---\n\n## Page 2\n\nX" (by decide) 2 (by decide) (by decide),
    (C1_cache_monotone_growth [doc120] (fun _ _ => "X") [] "doc120" 1 2).2.1,
    (C1_cache_monotone_growth [doc120] (fun _ _ => "X") [] "doc120" 1 2).2.2
      [("doc120", 1, 2), ("doc120", 2, 3)]⟩

/-- C2 counterexample: for a document whose total page count is known to be
`0` (a zero-page PDF), `extract_page_content(doc, 1, 1)` is NOT rejected by
the total-page bound even though `1 > 0`: Python evaluates
`if doc.total_pages and page_end > doc.total_pages` and `0` is falsy, so
the call proceeds to extraction and succeeds. -/
theorem C2_total_zero_not_rejected :
    doc0.total_pages = some 0 ∧ (1 : Int) > 0 ∧
    (extract_page_content [doc0] (fun _ _ => "X") [] "doc0" 1 1).outcome =
      .ok "## Page 1\n\nX" := by
  refine ⟨rfl, by decide, ?_⟩
  decide

/-- C2 (amended): `extract_page_content` validates in order — unknown
document reported not found; then a span with `page_end - page_start > 9`
rejected; then `page_start < 1` rejected; then, when the total page count
is known AND nonzero, `page_end` greater than the total rejected. At the
boundaries (on a 120-page document): `(5, 14)` passes validation,
`(5, 15)` is rejected for its span, `(0, 5)` for its start, and
`(118, 125)` by the total-page bound. -/
theorem C2_validation_order (store : List PDFDocument)
    (extract : String → Int → String) (cache : Cache) (docId : String) (ps pe : Int) :
    (storeGet store docId = none →
      (extract_page_content store extract cache docId ps pe).outcome =
        .notFound ("Document " ++ docId ++ " not found.")) ∧
    (∀ doc, storeGet store docId = some doc → pe - ps > 9 →
      (extract_page_content store extract cache docId ps pe).outcome =
        .spanTooLarge "Please limit page range to 10 pages at a time.") ∧
    (∀ doc, storeGet store docId = some doc → pe - ps ≤ 9 → ps < 1 →
      (extract_page_content store extract cache docId ps pe).outcome =
        .badStart "page_start must be >= 1.") ∧
    (∀ doc t, storeGet store docId = some doc → pe - ps ≤ 9 → 1 ≤ ps →
      doc.total_pages = some t → t ≠ 0 → pe > t →
      (extract_page_content store extract cache docId ps pe).outcome =
        .beyondTotal ("Document only has " ++ toString t ++ " pages.")) ∧
    (∃ out, (extract_page_content [doc120] extract cache "doc120" 5 14).outcome = .ok out) ∧
    (extract_page_content [doc120] extract cache "doc120" 5 15).outcome =
      .spanTooLarge "Please limit page range to 10 pages at a time." ∧
    (extract_page_content [doc120] extract cache "doc120" 0 5).outcome =
      .badStart "page_start must be >= 1." ∧
    (extract_page_content [doc120] extract cache "doc120" 118 125).outcome =
      .beyondTotal "Document only has 120 pages." := by
  refine ⟨?_, ?_, ?_, ?_, ?_, ?_, ?_, ?_⟩
  · intro h; simp [extract_page_content, h]
  · intro doc h hspan; simp [extract_page_content, h, hspan]
  · intro doc h hspan hstart
    simp [extract_page_content, h, show ¬ pe - ps > 9 by omega, hstart]
  · intro doc t h hspan hstart htp ht0 hpe
    simp [extract_page_content, h, show ¬ pe - ps > 9 by omega,
      show ¬ ps < 1 by omega, htp, ht0, hpe]
  · have hs : storeGet [doc120] "doc120" = some doc120 := by decide
    refine ⟨String.intercalate "\n\n---\n\n"
      (extractLoop extract "doc120" (rangeList 5 14) cache).2.2, ?_⟩
    simp [extract_page_content, hs, show ¬ (14 : Int) - 5 > 9 by decide,
      show ¬ (5 : Int) < 1 by decide, show doc120.total_pages = some 120 from rfl,
      show ¬ ((120 : Int) ≠ 0 ∧ (14 : Int) > 120) by decide, extractRun]
  · have hs : storeGet [doc120] "doc120" = some doc120 := by decide
    simp [extract_page_content, hs, show (15 : Int) - 5 > 9 by decide]
  · have hs : storeGet [doc120] "doc120" = some doc120 := by decide
    simp [extract_page_content, hs, show ¬ (5 : Int) - 0 > 9 by decide,
      show (0 : Int) < 1 by decide]
  · have hs : storeGet [doc120] "doc120" = some doc120 := by decide
    simp only [extract_page_content, hs, show doc120.total_pages = some 120 from rfl]
    rw [if_neg (by decide), if_neg (by decide), if_pos (by decide)]
    show ExtractOutcome.beyondTotal ("Document only has " ++ toString (120 : Int) ++ " pages.") =
      ExtractOutcome.beyondTotal "Document only has 120 pages."
    decide

/-- Witness for C2 (amended), discharging each clause's hypotheses at
concrete inputs. -/
theorem C2_validation_order_witness :
    (extract_page_content [] (fun _ _ => "X") [] "nope" 1 1).outcome =
      .notFound "Document nope not found." ∧
    (extract_page_content [doc120] (fun _ _ => "X") [] "doc120" 5 15).outcome =
      .spanTooLarge "Please limit page range to 10 pages at a time." ∧
    (extract_page_content [doc120] (fun _ _ => "X") [] "doc120" 0 5).outcome =
      .badStart "page_start must be >= 1." ∧
    (extract_page_content [doc120] (fun _ _ => "X") [] "doc120" 118 125).outcome =
      .beyondTotal "Document only has 120 pages." ∧
    (∃ out, (extract_page_content [doc120] (fun _ _ => "X") [] "doc120" 5 14).outcome =
      .ok out) :=
  ⟨(C2_validation_order [] (fun _ _ => "X") [] "nope" 1 1).1 (by decide),
    (C2_validation_order [doc120] (fun _ _ => "X") [] "doc120" 5 15).2.1 doc120
      (by decide) (by decide),
    (C2_validation_order [doc120] (fun _ _ => "X") [] "doc120" 0 5).2.2.1 doc120
      (by decide) (by decide) (by decide),
    (C2_validation_order [doc120] (fun _ _ => "X") [] "doc120" 118 125).2.2.2.1 doc120 120
      (by decide) (by decide) (by decide) (by decide) (by decide) (by decide),
    (C2_validation_order [doc120] (fun _ _ => "X") [] "doc120" 5 14).2.2.2.2.1⟩

/-- C10: with an existing document, `page_start > page_end`,
`page_start ≥ 1` and `page_end` within a known total, validation passes,
the loop body never runs: the call returns the empty string, makes no
extraction calls and leaves the cache unchanged. -/
theorem C10_empty_range (store : List PDFDocument) (extract : String → Int → String)
    (cache : Cache) (docId : String) (ps pe : Int) (doc : PDFDocument) (t : Int)
    (hdoc : storeGet store docId = some doc) (hlt : pe < ps) (hstart : 1 ≤ ps)
    (htot : doc.total_pages = some t) (hle : pe ≤ t) :
    extract_page_content store extract cache docId ps pe = ⟨cache, [], .ok ""⟩ := by
  have hrange : rangeList ps pe = [] := by
    simp [rangeList, show (pe + 1 - ps).toNat = 0 by omega]
  simp [extract_page_content, hdoc, show ¬ pe - ps > 9 by omega,
    show ¬ ps < 1 by omega, htot, show ¬ (t ≠ 0 ∧ pe > t) by omega,
    extractRun, hrange, extractLoop, String.intercalate]

/-- Witness for C10 at a concrete document and inverted range. -/
theorem C10_empty_range_witness :
    extract_page_content [doc120] (fun _ _ => "X") [(("doc120", 7), "old")] "doc120" 5 4 =
      ⟨[(("doc120", 7), "old")], [], .ok ""⟩ :=
  C10_empty_range [doc120] (fun _ _ => "X") [(("doc120", 7), "old")] "doc120" 5 4 doc120 120
    (by decide) (by decide) (by decide) (by decide) (by decide)

theorem rangeList_nodup (ps pe : Int) : (rangeList ps pe).Nodup := by
  refine List.Nodup.map ?_ (List.nodup_range _)
  intro a b hab
  simp only at hab
  omega

theorem extract_page_content_ok_eq (store : List PDFDocument)
    (extract : String → Int → String) (cache : Cache) (docId : String) (ps pe : Int)
    (out : String)
    (h : (extract_page_content store extract cache docId ps pe).outcome = .ok out) :
    extract_page_content store extract cache docId ps pe =
      extractRun extract cache docId ps pe := by
  rcases hs : storeGet store docId with _ | doc
  · simp [extract_page_content, hs] at h
  · by_cases h1 : pe - ps > 9
    · simp [extract_page_content, hs, h1] at h
    · by_cases h2 : ps < 1
      · simp [extract_page_content, hs, h1, h2] at h
      · rcases htp : doc.total_pages with _ | t
        · simp [extract_page_content, hs, h1, h2, htp]
        · by_cases h3 : t ≠ 0 ∧ pe > t
          · simp [extract_page_content, hs, h1, h2, htp, h3] at h
          · simp [extract_page_content, hs, h1, h2, htp, h3]

/-- On a duplicate-free page list, the loop calls the extraction agent
exactly for the pages that are not truthy-cached in the cache it started
from, and assembles one block per page, in list order, whose content is
the cached text on a truthy hit and the agent output on a miss. -/
theorem extractLoop_spec (extract : String → Int → String) (docId : String)
    (l : List Int) : ∀ c : Cache, l.Nodup →
    (extractLoop extract docId l c).2.1 =
      l.filter (fun p => !(strTruthy (cacheGet c docId p))) ∧
    (extractLoop extract docId l c).2.2 =
      l.map (fun p => pageBlock p (if strTruthy (cacheGet c docId p) then
        (cacheGet c docId p).getD "" else extract docId p)) := by
  induction l with
  | nil => intro c _; simp [extractLoop]
  | cons p rest ih =>
      intro c hnd
      obtain ⟨hnotin, hnd'⟩ := List.nodup_cons.mp hnd
      by_cases ht : strTruthy (cacheGet c docId p) = true
      · obtain ⟨ih1, ih2⟩ := ih c hnd'
        exact ⟨by simp [extractLoop, ht, List.filter_cons, ih1],
          by simp [extractLoop, ht, ih2]⟩
      · obtain ⟨ih1, ih2⟩ := ih (cachePut c docId p (extract docId p)) hnd'
        have hagree : ∀ q ∈ rest,
            cacheGet (cachePut c docId p (extract docId p)) docId q =
              cacheGet c docId q := by
          intro q hq
          refine cacheGet_put_other c docId p (extract docId p) docId q ?_
          intro hh
          exact hnotin (by
            have : q = p := (Prod.mk.injEq _ _ _ _ ▸ hh).2
            rw [← this]; exact hq)
        constructor
        · rw [show (extractLoop extract docId (p :: rest) c).2.1 =
              p :: (extractLoop extract docId rest (cachePut c docId p (extract docId p))).2.1
              by simp [extractLoop, ht]]
          rw [ih1, List.filter_cons]
          simp only [ht, Bool.not_false, if_pos]
          refine congrArg _ (List.filter_congr ?_)
          intro q hq
          rw [hagree q hq]
        · rw [show (extractLoop extract docId (p :: rest) c).2.2 =
              pageBlock p (extract docId p) ::
                (extractLoop extract docId rest (cachePut c docId p (extract docId p))).2.2
              by simp [extractLoop, ht]]
          rw [ih2]
          simp only [List.map_cons, if_neg ht]
          refine congrArg _ (List.map_congr_left ?_)
          intro q hq
          rw [hagree q hq]

/-- C3 (amended): a successful `extract_page_content` call invokes the
extraction agent exactly for the pages of the range that are absent from
the cache or cached as the empty string (Python `if cached:` treats a
cached empty string as a miss); all other cached pages are served without
an extraction call, and the output is one block per page of the range in
ascending page order — cached content for truthy hits, fresh agent output
for the rest. -/
theorem C3_partial_cache_reuse (store : List PDFDocument)
    (extract : String → Int → String) (cache : Cache) (docId : String) (ps pe : Int)
    (out : String)
    (h : (extract_page_content store extract cache docId ps pe).outcome = .ok out) :
    (extract_page_content store extract cache docId ps pe).calls =
      (rangeList ps pe).filter (fun p => !(strTruthy (cacheGet cache docId p))) ∧
    out = String.intercalate "\n\n---\n\n" ((rangeList ps pe).map (fun p =>
      pageBlock p (if strTruthy (cacheGet cache docId p) then
        (cacheGet cache docId p).getD "" else extract docId p))) := by
  have heq := extract_page_content_ok_eq store extract cache docId ps pe out h
  obtain ⟨h1, h2⟩ := extractLoop_spec extract docId (rangeList ps pe) cache
    (rangeList_nodup ps pe)
  rw [heq] at h ⊢
  refine ⟨by simpa [extractRun] using h1, ?_⟩
  have : ExtractOutcome.ok out = ExtractOutcome.ok (String.intercalate "\n\n---\n\n"
      (extractLoop extract docId (rangeList ps pe) cache).2.2) := by
    rw [← h]; rfl
  rw [ExtractOutcome.ok.injEq] at this
  rw [this, h2]

/-- C3 counterexample: with page 3 cached as the EMPTY string, the key
(doc, 3) is present in the cache, yet `extract_page_content(doc, 3, 3)`
still invokes the extraction agent for page 3, because `if cached:` is
false for `""`. -/
theorem C3_empty_string_cache_counterexample :
    (cacheGet [(("doc120", 3), "")] "doc120" 3).isSome = true ∧
    (extract_page_content [doc120] (fun _ _ => "X") [(("doc120", 3), "")]
      "doc120" 3 3).calls = [3] := by
  constructor <;> decide

/-- Witness for C3 (amended): pages 3–5 cached (non-empty), request 3–7:
the agent is called exactly for pages 6 and 7 and the output contains all
five pages in ascending order. -/
theorem C3_partial_cache_reuse_witness :
    (extract_page_content [doc120]
        (fun _ p => "B" ++ toString p)
        [(("doc120", 3), "A3"), (("doc120", 4), "A4"), (("doc120", 5), "A5")]
        "doc120" 3 7).calls = [6, 7] ∧
    (extract_page_content [doc120]
        (fun _ p => "B" ++ toString p)
        [(("doc120", 3), "A3"), (("doc120", 4), "A4"), (("doc120", 5), "A5")]
        "doc120" 3 7).outcome =
      .ok ("## Page 3\n\nA3\n\n---\n\n## Page 4\n\nA4\n\n---\n\n## Page 5\n\nA5"
        ++ "\n\n---\n\n## Page 6\n\nB6\n\n---\n\n## Page 7\n\nB7") := by
  have h : (extract_page_content [doc120]
      (fun _ p => "B" ++ toString p)
      [(("doc120", 3), "A3"), (("doc120", 4), "A4"), (("doc120", 5), "A5")]
      "doc120" 3 7).outcome =
      .ok ("## Page 3\n\nA3\n\n---\n\n## Page 4\n\nA4\n\n---\n\n## Page 5\n\nA5"
        ++ "\n\n---\n\n## Page 6\n\nB6\n\n---\n\n## Page 7\n\nB7") := by decide
  refine ⟨?_, h⟩
  refine (C3_partial_cache_reuse [doc120] (fun _ p => "B" ++ toString p)
    [(("doc120", 3), "A3"), (("doc120", 4), "A4"), (("doc120", 5), "A5")]
    "doc120" 3 7 _ h).1.trans ?_
  decide

/-! ### PDF page slicing (src/pdfz/pdf_utils.py, extract_page_range)

The pypdf reader/writer pair is modelled at the page level: a PDF is its
list of pages, and the writer receives `reader.pages[i]` for
`i in range(start_idx, end_idx)` with `start_idx = max(0, start - 1)` and
`end_idx = min(len(reader.pages), end)`, which is `drop`/`take` below.
Python's second parameter is named `end`, reserved in Lean, hence `stop`. -/

def extract_page_range {α : Type} (pages : List α) (start stop : Int) : List α :=
  (pages.drop (max 0 (start - 1)).toNat).take
    ((min (pages.length : Int) stop - max 0 (start - 1)).toNat)

/-- C9: `extract_page_range` returns exactly the pages at 1-indexed
positions `[start, end]` of the input, with `end` clamped to the last page
and `start` clamped to the first page: writing `s := max start 1` and
`e := min end length`, the i-th output page is input page `s + i`, for
every offset `i` with `s + i ≤ e`, and the output length is `e - s + 1`
(zero when the clamped interval is empty). -/
theorem C9_extract_page_range_slices {α : Type} (pages : List α) (start stop : Int) :
    (∀ i : Nat, (extract_page_range pages start stop)[i]? =
      (if (i : Int) < min stop (pages.length : Int) - max start 1 + 1
       then pages[(max start 1 - 1).toNat + i]? else none)) ∧
    (extract_page_range pages start stop).length =
      (min stop (pages.length : Int) - max start 1 + 1).toNat := by
  constructor
  · intro i
    simp only [extract_page_range, List.getElem?_take, List.getElem?_drop]
    have hd : (max 0 (start - 1)).toNat = (max start 1 - 1).toNat := by omega
    have hc : (i < (min (pages.length : Int) stop - max 0 (start - 1)).toNat) ↔
        ((i : Int) < min stop (pages.length : Int) - max start 1 + 1) := by omega
    rw [hd]
    split_ifs with h1 h2 h3
    · rfl
    · exact absurd (hc.mp h1) h2
    · exact absurd (hc.mpr h3) h1
    · rfl
  · simp only [extract_page_range, List.length_take, List.length_drop]
    omega

/-! ### Ingestion and duplicate detection (src/pdfz/ingest.py, src/pdfz/store.py)

`download_pdf`, `hashlib.sha256(...).hexdigest()`, `get_total_pages` and
the metadata-extraction agent (which receives the first
`min(15, total_pages)` pages sliced from the same bytes) are external and
appear as oracle functions of the downloaded bytes; the `id` freshly
generated by `uuid4` is the `newId` parameter. On a hash hit the code
raises `DuplicateDocumentError(existing)` before `store.add`, modelled as
`.error existing` with the store returned unchanged; otherwise `store.add`
appends the new document. -/

structure ExtractionResult where
  title : String
  authors : List String
  toc : String
  contextual_summary : String
deriving DecidableEq, Repr

def ingestedDoc (content_hash : String) (ex : ExtractionResult)
    (newId url : String) (total : Int) : PDFDocument :=
  { id := newId, content_hash := content_hash, title := ex.title,
    authors := ex.authors, source_url := url, toc := ex.toc,
    contextual_summary := ex.contextual_summary, total_pages := some total }

def ingest_pdf (download : String → List Nat) (sha256hex : List Nat → String)
    (totalPagesOf : List Nat → Int) (analyze : List Nat → ExtractionResult)
    (newId : String) (url : String) (store : List PDFDocument) :
    List PDFDocument × Except PDFDocument PDFDocument :=
  let pdfBytes := download url
  let content_hash := sha256hex pdfBytes
  match find_by_hash store content_hash with
  | some existing => (store, .error existing)
  | none =>
      let doc := ingestedDoc content_hash (analyze pdfBytes) newId url
        (totalPagesOf pdfBytes)
      (store ++ [doc], .ok doc)

theorem find_by_hash_none_iff (store : List PDFDocument) (h : String) :
    find_by_hash store h = none ↔ ∀ d ∈ store, d.content_hash ≠ h := by
  induction store with
  | nil => simp [find_by_hash]
  | cons doc rest ih =>
      by_cases hd : doc.content_hash = h
      · simp [find_by_hash, hd]
      · simp [find_by_hash, hd, ih]

theorem find_by_hash_append_singleton (store : List PDFDocument)
    (doc : PDFDocument) (h : String) (hnone : find_by_hash store h = none)
    (hdoc : doc.content_hash = h) :
    find_by_hash (store ++ [doc]) h = some doc := by
  induction store with
  | nil => simp [find_by_hash, hdoc]
  | cons d rest ih =>
      have hd : ¬ d.content_hash = h := by
        intro hh
        simp [find_by_hash, hh] at hnone
      have hrest : find_by_hash rest h = none := by
        simpa [find_by_hash, hd] using hnone
      simpa [find_by_hash, hd] using ih hrest

/-- C8: if the downloaded bytes hash to a content hash already in the
store, ingestion signals a duplicate-document conflict carrying the
existing document and adds no record; a successful ingestion appends a
document whose hash was absent, so hash-uniqueness of the store is
preserved; and re-ingesting the byte-identical URL immediately after a
successful ingestion yields the conflict referencing the document added
first. -/
theorem C8_duplicate_ingestion (download : String → List Nat)
    (sha256hex : List Nat → String) (totalPagesOf : List Nat → Int)
    (analyze : List Nat → ExtractionResult) (newId : String) (url : String)
    (store : List PDFDocument) :
    (∀ d, find_by_hash store (sha256hex (download url)) = some d →
      ingest_pdf download sha256hex totalPagesOf analyze newId url store =
        (store, .error d)) ∧
    ((store.map PDFDocument.content_hash).Nodup →
      (((ingest_pdf download sha256hex totalPagesOf analyze newId url store).1.map
        PDFDocument.content_hash).Nodup)) ∧
    (∀ newDoc, (ingest_pdf download sha256hex totalPagesOf analyze newId url store).2 =
        .ok newDoc →
      ∀ newId₂, ingest_pdf download sha256hex totalPagesOf analyze newId₂ url
          (ingest_pdf download sha256hex totalPagesOf analyze newId url store).1 =
        ((ingest_pdf download sha256hex totalPagesOf analyze newId url store).1,
          .error newDoc)) := by
  refine ⟨?_, ?_, ?_⟩
  · intro d hd
    simp [ingest_pdf, hd]
  · intro hnd
    rcases hf : find_by_hash store (sha256hex (download url)) with _ | d
    · have habs := (find_by_hash_none_iff store (sha256hex (download url))).mp hf
      have h1 : ingest_pdf download sha256hex totalPagesOf analyze newId url store =
          (store ++ [ingestedDoc (sha256hex (download url)) (analyze (download url))
            newId url (totalPagesOf (download url))],
           .ok (ingestedDoc (sha256hex (download url)) (analyze (download url))
            newId url (totalPagesOf (download url)))) := by
        simp [ingest_pdf, hf]
      rw [h1]
      simp only [List.map_append, List.map_cons, List.map_nil]
      rw [List.nodup_append]
      refine ⟨hnd, List.nodup_singleton _, fun x hx hy => ?_⟩
      simp only [List.mem_singleton] at hy
      obtain ⟨d, hdmem, hdh⟩ := List.mem_map.mp hx
      subst hy
      rw [show (ingestedDoc (sha256hex (download url)) (analyze (download url))
        newId url (totalPagesOf (download url))).content_hash =
        sha256hex (download url) from rfl] at hdh
      exact habs d hdmem hdh
    · simp [ingest_pdf, hf, hnd]
  · intro newDoc hok newId₂
    rcases hf : find_by_hash store (sha256hex (download url)) with _ | d
    · have h1 : ingest_pdf download sha256hex totalPagesOf analyze newId url store =
          (store ++ [ingestedDoc (sha256hex (download url)) (analyze (download url))
            newId url (totalPagesOf (download url))],
           .ok (ingestedDoc (sha256hex (download url)) (analyze (download url))
            newId url (totalPagesOf (download url)))) := by
        simp [ingest_pdf, hf]
      rw [h1] at hok ⊢
      have hnd2 : ingestedDoc (sha256hex (download url)) (analyze (download url))
          newId url (totalPagesOf (download url)) = newDoc := by
        simpa using hok
      have hfind : find_by_hash
          (store ++ [ingestedDoc (sha256hex (download url)) (analyze (download url))
            newId url (totalPagesOf (download url))])
          (sha256hex (download url)) = some newDoc := by
        rw [← hnd2]
        exact find_by_hash_append_singleton store _ (sha256hex (download url)) hf rfl
      simp [ingest_pdf, hfind]
    · simp [ingest_pdf, hf] at hok

/-- The document produced by the first witness ingestion. -/
def docId1 : PDFDocument :=
  { id := "id1", content_hash := "hh", title := "T", authors := [],
    source_url := "u", toc := "", contextual_summary := "",
    total_pages := some 3 }

/-- A pre-existing stored document sharing the witness content hash. -/
def docId0 : PDFDocument :=
  { id := "id0", content_hash := "hh", title := "T0", authors := [],
    source_url := "u0", toc := "", contextual_summary := "",
    total_pages := some 9 }

/-- Witness for C8 with a concrete store, hash oracle and two ingests. -/
theorem C8_duplicate_ingestion_witness :
    ingest_pdf (fun _ => [7]) (fun _ => "hh") (fun _ => 3)
        (fun _ => ⟨"T", [], "", ""⟩) "id2" "u"
        (ingest_pdf (fun _ => [7]) (fun _ => "hh") (fun _ => 3)
          (fun _ => ⟨"T", [], "", ""⟩) "id1" "u" []).1 =
      ((ingest_pdf (fun _ => [7]) (fun _ => "hh") (fun _ => 3)
          (fun _ => ⟨"T", [], "", ""⟩) "id1" "u" []).1, .error docId1) ∧
    (((ingest_pdf (fun _ => [7]) (fun _ => "hh") (fun _ => 3)
        (fun _ => ⟨"T", [], "", ""⟩) "id1" "u" []).1.map
          PDFDocument.content_hash).Nodup) ∧
    ingest_pdf (fun _ => [7]) (fun _ => "hh") (fun _ => 3)
        (fun _ => ⟨"T", [], "", ""⟩) "id1" "u" [docId0] =
      ([docId0], .error docId0) :=
  ⟨(C8_duplicate_ingestion (fun _ => [7]) (fun _ => "hh") (fun _ => 3)
      (fun _ => ⟨"T", [], "", ""⟩) "id1" "u" []).2.2 docId1 rfl "id2",
    (C8_duplicate_ingestion (fun _ => [7]) (fun _ => "hh") (fun _ => 3)
      (fun _ => ⟨"T", [], "", ""⟩) "id1" "u" []).2.1 (by decide),
    (C8_duplicate_ingestion (fun _ => [7]) (fun _ => "hh") (fun _ => 3)
      (fun _ => ⟨"T", [], "", ""⟩) "id1" "u" [docId0]).1 docId0 (by decide)⟩

/-! ### Text search (src/pdfz/mcp_server.py, find_pages)

pypdf's per-page `page.extract_text() or ""` is external: the oracle
`fetchPages : url → List (List Char)` yields each page's plain text in
page order. Python string primitives are modelled over `List Char`:
`str.lower()` character-wise with `Char.toLower` (exact on ASCII),
`hay.find(needle, i)` as `findFrom`, the `in` operator as `containsSub`,
non-overlapping `str.count` as `countOcc`, slicing as `sliceClamp` and
`" ".join(s.split())` as `collapseWs`. -/

def lc (s : List Char) : List Char := s.map Char.toLower

def findAux (needle : List Char) : List Char → Nat → Option Nat
  | [], i => if needle.isPrefixOf ([] : List Char) then some i else none
  | c :: rest, i =>
      if needle.isPrefixOf (c :: rest) then some i else findAux needle rest (i + 1)

/-- Python `hay.find(needle, i)`: the smallest j ≥ i where `needle` occurs
(also matching Python's treatment of an empty needle and of i past the
end), as an `Option` instead of the -1 sentinel. -/
def findFrom (hay needle : List Char) (i : Nat) : Option Nat :=
  if i ≤ hay.length then findAux needle (hay.drop i) i else none

/-- Python `needle in hay`. -/
def containsSub (hay needle : List Char) : Bool := (findFrom hay needle 0).isSome

/-- The scan of Python `hay.count(needle)` for non-empty `needle`: on a
match skip `len(needle)` characters, otherwise advance by one. The `fuel`
only bounds the recursion depth; every step strictly shortens the haystack,
so any `fuel ≥ hay.length` computes the full scan. -/
def countOccGo (needle : List Char) : Nat → List Char → Nat
  | _, [] => 0
  | 0, _ :: _ => 0
  | fuel + 1, c :: tail =>
      if needle.isPrefixOf (c :: tail) then
        countOccGo needle fuel ((c :: tail).drop needle.length) + 1
      else countOccGo needle fuel tail

/-- Python `hay.count(needle)`: non-overlapping occurrence count, scanning
left to right and skipping `len(needle)` after each match. -/
def countOcc (needle : List Char) (hay : List Char) : Nat :=
  if needle.isEmpty then hay.length + 1
  else countOccGo needle hay.length hay

/-- Python `text[a:b]` for the snippet window (0 ≤ a, b clamped). -/
def sliceClamp (text : List Char) (a b : Nat) : List Char := (text.take b).drop a

/-- The whitespace class of Python `str.split()` (ASCII part). -/
def isPySpace (c : Char) : Bool :=
  c == ' ' || c == '\t' || c == '\n' || c == '\r' || c == '\u000B' || c == '\u000C'

def wordsAux : List Char → List Char → List (List Char)
  | [], acc => if acc.isEmpty then [] else [acc.reverse]
  | c :: rest, acc =>
      if isPySpace c then
        if acc.isEmpty then wordsAux rest [] else acc.reverse :: wordsAux rest []
      else wordsAux rest (c :: acc)

def joinSpace : List (List Char) → List Char
  | [] => []
  | [w] => w
  | w :: ws => w ++ ' ' :: joinSpace ws

/-- Python `" ".join(s.split())`: collapse internal whitespace runs to
single spaces, dropping leading and trailing whitespace. -/
def collapseWs (s : List Char) : List Char := joinSpace (wordsAux s [])

/-- The `while len(snippets) < 3` loop body: find the next match at or
after `idx`, emit the collapsed window `text[max(0, pos-60) :
min(len(text), pos+len(query)+60)]`, continue from `pos + 1`. -/
def collectSnippets (textLower queryLower text : List Char) (qlen : Nat) :
    Nat → Nat → List (List Char)
  | 0, _ => []
  | fuel + 1, idx =>
      match findFrom textLower queryLower idx with
      | none => []
      | some pos =>
          collapseWs (sliceClamp text (pos - 60) (min text.length (pos + qlen + 60))) ::
            collectSnippets textLower queryLower text qlen fuel (pos + 1)

structure PageHit where
  page : Int
  count : Nat
  snippets : List (List Char)
deriving DecidableEq, Repr

/-- The `for page_num, page in enumerate(reader.pages, start=1)` loop:
skip pages without a case-insensitive match, otherwise record the page
number, the non-overlapping occurrence count and up to 3 snippets. -/
def pageHitsAux (queryL : List Char) (qlen : Nat) :
    List (List Char) → Int → List PageHit
  | [], _ => []
  | text :: rest, n =>
      if containsSub (lc text) queryL then
        { page := n, count := countOcc queryL (lc text),
          snippets := collectSnippets (lc text) queryL text qlen 3 0 } ::
          pageHitsAux queryL qlen rest (n + 1)
      else pageHitsAux queryL qlen rest (n + 1)

def pageHits (pages : List (List Char)) (query : String) : List PageHit :=
  pageHitsAux (lc query.data) query.length pages 1

def renderSnippet (s : List Char) : String := "  …" ++ String.mk s ++ "…"

def renderHit (h : PageHit) : String :=
  let plural := if h.count = 1 then "" else "s"
  let pageStr := toString h.page
  let countStr := toString h.count
  "Page " ++ pageStr ++ " (" ++ countStr ++ " occurrence" ++ plural ++ ")\n" ++
    String.intercalate "\n" (h.snippets.map renderSnippet)

def find_pages (store : List PDFDocument) (fetchPages : String → List (List Char))
    (document_id : String) (query : String) : String :=
  match storeGet store document_id with
  | none => "Document " ++ document_id ++ " not found."
  | some doc =>
      let hits := pageHits (fetchPages doc.source_url) query
      if hits.isEmpty then
        "No pages found containing \"" ++ query ++ "\"."
      else
        let plural := if hits.length = 1 then "" else "s"
        "Found \"" ++ query ++ "\" on " ++ toString hits.length ++ " page" ++ plural ++
          ":\n\n" ++ String.intercalate "\n\n" (hits.map renderHit)

theorem findAux_spec (needle : List Char) :
    ∀ (rest : List Char) (i pos : Nat), findAux needle rest i = some pos →
      i ≤ pos ∧ needle.isPrefixOf (rest.drop (pos - i)) = true := by
  intro rest
  induction rest with
  | nil =>
      intro i pos h
      simp only [findAux] at h
      by_cases hp : needle.isPrefixOf ([] : List Char) = true
      · rw [if_pos hp] at h
        cases h
        exact ⟨le_refl _, by simpa using hp⟩
      · rw [if_neg hp] at h
        cases h
  | cons c rest ih =>
      intro i pos h
      simp only [findAux] at h
      by_cases hp : needle.isPrefixOf (c :: rest) = true
      · rw [if_pos hp] at h
        cases h
        exact ⟨le_refl _, by simpa using hp⟩
      · rw [if_neg hp] at h
        obtain ⟨h1, h2⟩ := ih (i + 1) pos h
        refine ⟨by omega, ?_⟩
        obtain ⟨k, hk⟩ : ∃ k, pos - i = k + 1 := ⟨pos - i - 1, by omega⟩
        rw [hk, List.drop_succ_cons]
        rw [show k = pos - (i + 1) by omega]
        exact h2

theorem findFrom_spec (hay needle : List Char) (i pos : Nat)
    (h : findFrom hay needle i = some pos) :
    i ≤ pos ∧ needle.isPrefixOf (hay.drop pos) = true := by
  simp only [findFrom] at h
  by_cases hi : i ≤ hay.length
  · rw [if_pos hi] at h
    obtain ⟨h1, h2⟩ := findAux_spec needle (hay.drop i) i pos h
    refine ⟨h1, ?_⟩
    rw [List.drop_drop] at h2
    rwa [show i + (pos - i) = pos by omega] at h2
  · rw [if_neg hi] at h
    cases h

theorem countOccGo_pos (needle : List Char) (hne : needle ≠ []) :
    ∀ (hay : List Char) (fuel pos : Nat), hay.length ≤ fuel →
      needle.isPrefixOf (hay.drop pos) = true → 1 ≤ countOccGo needle fuel hay := by
  intro hay
  induction hay with
  | nil =>
      intro fuel pos _ h
      rw [List.drop_nil] at h
      exact absurd (List.prefix_nil.mp (List.isPrefixOf_iff_prefix.mp h)) hne
  | cons c tail ih =>
      intro fuel pos hfuel h
      rcases fuel with _ | f
      · simp at hfuel
      · have hfuel' : tail.length ≤ f := by
          simp at hfuel
          omega
        rcases pos with _ | k
        · rw [List.drop_zero] at h
          simp only [countOccGo]
          rw [if_pos h]
          omega
        · rw [List.drop_succ_cons] at h
          have h1 := ih f k hfuel' h
          simp only [countOccGo]
          by_cases hp : needle.isPrefixOf (c :: tail) = true
          · rw [if_pos hp]
            omega
          · rw [if_neg hp]
            exact h1

theorem countOcc_pos (needle : List Char) (hne : needle ≠ []) (hay : List Char)
    (pos : Nat) (h : needle.isPrefixOf (hay.drop pos) = true) :
    1 ≤ countOcc needle hay := by
  have hie : ¬ needle.isEmpty = true := by simpa using hne
  rw [countOcc, if_neg hie]
  exact countOccGo_pos needle hne hay hay.length pos (le_refl _) h

theorem collectSnippets_spec (textLower queryLower text : List Char) (qlen : Nat) :
    ∀ (fuel idx : Nat), ∃ ps : List Nat,
      collectSnippets textLower queryLower text qlen fuel idx =
        ps.map (fun pos => collapseWs (sliceClamp text (pos - 60)
          (min text.length (pos + qlen + 60)))) ∧
      ps.length ≤ fuel ∧
      ps.Pairwise (· < ·) ∧
      (∀ q ∈ ps, idx ≤ q ∧ queryLower.isPrefixOf (textLower.drop q) = true) := by
  intro fuel
  induction fuel with
  | zero =>
      intro idx
      exact ⟨[], by simp [collectSnippets], by simp, by simp, by simp⟩
  | succ fuel ih =>
      intro idx
      rcases hf : findFrom textLower queryLower idx with _ | pos
      · exact ⟨[], by simp [collectSnippets, hf], by simp, by simp, by simp⟩
      · obtain ⟨hle, hpre⟩ := findFrom_spec textLower queryLower idx pos hf
        obtain ⟨ps, h1, h2, h3, h4⟩ := ih (pos + 1)
        refine ⟨pos :: ps, ?_, ?_, ?_, ?_⟩
        · simp only [collectSnippets, hf, h1, List.map_cons]
        · simpa using h2
        · refine List.pairwise_cons.mpr ⟨?_, h3⟩
          intro q hq
          have := (h4 q hq).1
          omega
        · intro q hq
          rcases List.mem_cons.mp hq with rfl | hq'
          · exact ⟨hle, hpre⟩
          · obtain ⟨ha, hb⟩ := h4 q hq'
            exact ⟨by omega, hb⟩

theorem pageHitsAux_mem_spec (queryL : List Char) (qlen : Nat) :
    ∀ (pages : List (List Char)) (n0 : Int) (hit : PageHit),
      hit ∈ pageHitsAux queryL qlen pages n0 →
      ∃ (i : Nat) (t : List Char), pages[i]? = some t ∧ hit.page = n0 + i ∧
        containsSub (lc t) queryL = true ∧
        hit.count = countOcc queryL (lc t) ∧
        hit.snippets = collectSnippets (lc t) queryL t qlen 3 0 := by
  intro pages
  induction pages with
  | nil =>
      intro n0 hit h
      simp [pageHitsAux] at h
  | cons text rest ih =>
      intro n0 hit h
      by_cases hc : containsSub (lc text) queryL = true
      · rcases List.mem_cons.mp (by simpa [pageHitsAux, hc] using h) with rfl | h'
        · exact ⟨0, text, by simp, by simp, hc, rfl, rfl⟩
        · obtain ⟨i, t, ha, hb, hc', hd, he⟩ := ih (n0 + 1) hit h'
          exact ⟨i + 1, t, by simpa using ha, by omega, hc', hd, he⟩
      · have h' : hit ∈ pageHitsAux queryL qlen rest (n0 + 1) := by
          simpa [pageHitsAux, hc] using h
        obtain ⟨i, t, ha, hb, hc', hd, he⟩ := ih (n0 + 1) hit h'
        exact ⟨i + 1, t, by simpa using ha, by omega, hc', hd, he⟩

theorem pageHitsAux_mem_of (queryL : List Char) (qlen : Nat) :
    ∀ (pages : List (List Char)) (n0 : Int) (i : Nat) (t : List Char),
      pages[i]? = some t → containsSub (lc t) queryL = true →
      ∃ hit ∈ pageHitsAux queryL qlen pages n0, hit.page = n0 + i := by
  intro pages
  induction pages with
  | nil =>
      intro n0 i t ha _
      simp at ha
  | cons text rest ih =>
      intro n0 i t ha hc
      rcases i with _ | j
      · have htt : text = t := by simpa using ha
        subst htt
        refine ⟨⟨n0, countOcc queryL (lc text),
          collectSnippets (lc text) queryL text qlen 3 0⟩, ?_, by simp⟩
        simp [pageHitsAux, hc]
      · have ha' : rest[j]? = some t := by simpa using ha
        obtain ⟨hit, hmem, hpage⟩ := ih (n0 + 1) j t ha' hc
        refine ⟨hit, ?_, by omega⟩
        by_cases hcc : containsSub (lc text) queryL = true
        · simp only [pageHitsAux, if_pos hcc]
          exact List.mem_cons_of_mem _ hmem
        · simpa [pageHitsAux, hcc] using hmem

theorem pageHitsAux_page_lowbound (queryL : List Char) (qlen : Nat) :
    ∀ (pages : List (List Char)) (n0 : Int) (hit : PageHit),
      hit ∈ pageHitsAux queryL qlen pages n0 → n0 ≤ hit.page := by
  intro pages
  induction pages with
  | nil =>
      intro n0 hit h
      simp [pageHitsAux] at h
  | cons text rest ih =>
      intro n0 hit h
      by_cases hc : containsSub (lc text) queryL = true
      · rcases List.mem_cons.mp (by simpa [pageHitsAux, hc] using h) with rfl | h'
        · simp
        · have := ih (n0 + 1) hit h'
          omega
      · have h' : hit ∈ pageHitsAux queryL qlen rest (n0 + 1) := by
          simpa [pageHitsAux, hc] using h
        have := ih (n0 + 1) hit h'
        omega

theorem pageHitsAux_sorted (queryL : List Char) (qlen : Nat) :
    ∀ (pages : List (List Char)) (n0 : Int),
      ((pageHitsAux queryL qlen pages n0).map PageHit.page).Pairwise (· < ·) := by
  intro pages
  induction pages with
  | nil =>
      intro n0
      simp [pageHitsAux]
  | cons text rest ih =>
      intro n0
      by_cases hc : containsSub (lc text) queryL = true
      · simp only [pageHitsAux, if_pos hc, List.map_cons]
        refine List.pairwise_cons.mpr ⟨?_, ih (n0 + 1)⟩
        intro y hy
        obtain ⟨hit, hmem, rfl⟩ := List.mem_map.mp hy
        have := pageHitsAux_page_lowbound queryL qlen rest (n0 + 1) hit hmem
        omega
      · simpa [pageHitsAux, hc] using ih (n0 + 1)

/-- C4: for a stored document and non-empty query, the hits are exactly
the pages whose extracted text contains the query as a case-insensitive
substring; hit pages are strictly ascending; two queries with the same
lowercasing produce identical results; no matching page yields the
explicit no-pages-found message, and a match yields the hit listing. -/
theorem C4_find_pages_search (store : List PDFDocument)
    (fetchPages : String → List (List Char)) (docId : String) (query : String)
    (doc : PDFDocument) (hdoc : storeGet store docId = some doc) (hq : query ≠ "") :
    (∀ m : Int, m ∈ (pageHits (fetchPages doc.source_url) query).map PageHit.page ↔
      ∃ (i : Nat) (t : List Char), (fetchPages doc.source_url)[i]? = some t ∧
        m = (i : Int) + 1 ∧ containsSub (lc t) (lc query.data) = true) ∧
    ((pageHits (fetchPages doc.source_url) query).map PageHit.page).Pairwise (· < ·) ∧
    (∀ q₂ : String, lc q₂.data = lc query.data →
      pageHits (fetchPages doc.source_url) q₂ = pageHits (fetchPages doc.source_url) query) ∧
    (pageHits (fetchPages doc.source_url) query = [] →
      find_pages store fetchPages docId query =
        "No pages found containing \"" ++ query ++ "\".") ∧
    (pageHits (fetchPages doc.source_url) query ≠ [] →
      find_pages store fetchPages docId query =
        "Found \"" ++ query ++ "\" on " ++
          toString (pageHits (fetchPages doc.source_url) query).length ++ " page" ++
          (if (pageHits (fetchPages doc.source_url) query).length = 1 then "" else "s") ++
          ":\n\n" ++ String.intercalate "\n\n"
            ((pageHits (fetchPages doc.source_url) query).map renderHit)) := by
  refine ⟨?_, ?_, ?_, ?_, ?_⟩
  · intro m
    constructor
    · intro hm
      obtain ⟨hit, hmem, rfl⟩ := List.mem_map.mp hm
      obtain ⟨i, t, ha, hb, hc, _, _⟩ := pageHitsAux_mem_spec (lc query.data)
        query.length (fetchPages doc.source_url) 1 hit hmem
      exact ⟨i, t, ha, by omega, hc⟩
    · rintro ⟨i, t, ha, rfl, hc⟩
      obtain ⟨hit, hmem, hpage⟩ := pageHitsAux_mem_of (lc query.data) query.length
        (fetchPages doc.source_url) 1 i t ha hc
      exact List.mem_map.mpr ⟨hit, hmem, by omega⟩
  · exact pageHitsAux_sorted (lc query.data) query.length (fetchPages doc.source_url) 1
  · intro q₂ hlc
    have hlen : q₂.length = query.length := by
      have hl := congrArg List.length hlc
      simp only [lc, List.length_map] at hl
      exact hl
    simp only [pageHits, hlc, hlen]
  · intro hnil
    simp [find_pages, hdoc, hnil]
  · intro hne
    simp only [find_pages, hdoc]
    rw [if_neg (by simpa [List.isEmpty_iff] using hne)]

/-- C5: each page hit reports the non-overlapping case-insensitive
occurrence count of the query in that page's text (at least one), and at
most 3 snippets; the snippets correspond to a strictly increasing list of
genuine match positions (the search resumes at `pos + 1` after each), each
snippet being the window from 60 characters before to 60 characters after
the match start plus the query length, with whitespace collapsed. -/
theorem C5_counts_and_snippets (store : List PDFDocument)
    (fetchPages : String → List (List Char)) (docId : String) (query : String)
    (doc : PDFDocument) (hdoc : storeGet store docId = some doc) (hq : query ≠ "") :
    ∀ hit ∈ pageHits (fetchPages doc.source_url) query,
      ∃ (i : Nat) (t : List Char), (fetchPages doc.source_url)[i]? = some t ∧
        hit.page = (i : Int) + 1 ∧
        hit.count = countOcc (lc query.data) (lc t) ∧
        1 ≤ hit.count ∧
        hit.snippets.length ≤ 3 ∧
        ∃ ps : List Nat, ps.Pairwise (· < ·) ∧
          hit.snippets = ps.map (fun pos => collapseWs (sliceClamp t (pos - 60)
            (min t.length (pos + query.length + 60)))) ∧
          ∀ q ∈ ps, (lc query.data).isPrefixOf ((lc t).drop q) = true := by
  intro hit hmem
  obtain ⟨i, t, ha, hb, hc, hd, he⟩ := pageHitsAux_mem_spec (lc query.data)
    query.length (fetchPages doc.source_url) 1 hit hmem
  obtain ⟨ps, h1, h2, h3, h4⟩ :=
    collectSnippets_spec (lc t) (lc query.data) t query.length 3 0
  have hqne : lc query.data ≠ [] := by
    intro hh
    apply hq
    have hd0 : query.data = [] := by simpa [lc] using hh
    cases query
    exact congrArg String.mk hd0
  have hcount : 1 ≤ hit.count := by
    rw [hd]
    rcases hfind : findFrom (lc t) (lc query.data) 0 with _ | pos
    · rw [containsSub, hfind] at hc
      simp at hc
    · obtain ⟨_, hpre⟩ := findFrom_spec (lc t) (lc query.data) 0 pos hfind
      exact countOcc_pos (lc query.data) hqne (lc t) pos hpre
  refine ⟨i, t, ha, by omega, hd, hcount, ?_, ps, h3, ?_, fun q hqq => (h4 q hqq).2⟩
  · rw [he, h1]
    simpa using h2
  · rw [he, h1]

/-- The page texts of the search witness document. -/
def pagesW : List (List Char) :=
  ["We thank Anthropic for the Anthropic toolkit".data,
   "anthropic agents at work".data,
   "no relevant term here".data]

def fetchW : String → List (List Char) := fun _ => pagesW

/-- Witness for C4: "Anthropic" matches pages 1 and 2 only, in order,
"ANTHROPIC" gives the identical result, and "zebra" yields the
no-pages-found message. -/
theorem C4_find_pages_search_witness :
    ((1 : Int) ∈ (pageHits (fetchW doc120.source_url) "Anthropic").map PageHit.page) ∧
    ((pageHits (fetchW doc120.source_url) "Anthropic").map PageHit.page).Pairwise (· < ·) ∧
    pageHits (fetchW doc120.source_url) "ANTHROPIC" =
      pageHits (fetchW doc120.source_url) "Anthropic" ∧
    find_pages [doc120] fetchW "doc120" "zebra" =
      "No pages found containing \"zebra\"." := by
  have h := C4_find_pages_search [doc120] fetchW "doc120" "Anthropic" doc120
    (by decide) (by decide)
  have h2 := C4_find_pages_search [doc120] fetchW "doc120" "zebra" doc120
    (by decide) (by decide)
  exact ⟨(h.1 1).mpr ⟨0, "We thank Anthropic for the Anthropic toolkit".data,
      by decide, by decide, by decide⟩,
    h.2.1, h.2.2.1 "ANTHROPIC" (by decide), h2.2.2.2.1 (by decide)⟩

/-- The hit that the witness search produces for page 1. -/
def hitW : PageHit :=
  { page := 1, count := 2,
    snippets := ["We thank Anthropic for the Anthropic toolkit".data,
                 "We thank Anthropic for the Anthropic toolkit".data] }

/-- Witness for C5 at the page-1 hit of the witness search. -/
theorem C5_counts_and_snippets_witness :
    ∃ (i : Nat) (t : List Char), (fetchW doc120.source_url)[i]? = some t ∧
      hitW.page = (i : Int) + 1 ∧
      hitW.count = countOcc (lc "Anthropic".data) (lc t) ∧
      1 ≤ hitW.count ∧
      hitW.snippets.length ≤ 3 ∧
      ∃ ps : List Nat, ps.Pairwise (· < ·) ∧
        hitW.snippets = ps.map (fun pos => collapseWs (sliceClamp t (pos - 60)
          (min t.length (pos + "Anthropic".length + 60)))) ∧
        ∀ q ∈ ps, (lc "Anthropic".data).isPrefixOf ((lc t).drop q) = true :=
  C5_counts_and_snippets [doc120] fetchW "doc120" "Anthropic" doc120
    (by decide) (by decide) hitW (by decide)

end PdfzModel
